import Mathlib

/-!
# Verification of the climpred ensemble-forecast verification engine

A shallow embedding of the core of the `climpred` package: the
lead/init aligner, the comparison strategies, the metric engine, the
skill-computation orchestrator (`verify` / `compute_perfect_model`),
the bootstrap resampler (`bootstrap_perfect_model`) and the
significance engine.  The repository snapshot ships only the example
notebooks (callers of the engine), so every engine definition below is
modelled from the specification's contracts, as flagged in each doc
comment.

Conventions: time instants are integers, data values are exact
rationals (so that chunked/unchunked comparisons are exact), missing
values are `Option`, and the lead unit is an integer multiplier
`unitM` with `valid_time init lead = init + lead * unitM`.
-/

namespace Climpred

/-- Modelled from the spec: `valid_time = offset(init, lead, unit)`,
realised as `init + lead * unitM` for an integer unit multiplier. -/
def validTime (init : Int) (lead : Nat) (unitM : Nat) : Int :=
  init + (lead : Int) * (unitM : Int)

/-- Modelled from the spec (Lead/Init Aligner, `maximize` policy): for
each lead independently, the maximal set of `init` values whose
`valid_time` exists in the reference's `time` coordinate. -/
def validInits (inits : List Int) (refTimes : List Int) (unitM : Nat)
    (lead : Nat) : List Int :=
  inits.filter (fun i => decide (validTime i lead unitM ∈ refTimes))

/-- Modelled from the spec (Lead/Init Aligner, `same_inits` policy):
use only `init` values valid across every lead being verified. -/
def sameInitsPool (inits : List Int) (refTimes : List Int) (unitM : Nat)
    (leads : List Nat) : List Int :=
  inits.filter (fun i => leads.all (fun l => decide (validTime i l unitM ∈ refTimes)))

/-- Modelled from the spec: the per-lead aligned slice under
`same_inits` pairs each pooled init with its valid time at that
lead. -/
def alignSameInits (inits : List Int) (refTimes : List Int) (unitM : Nat)
    (leads : List Nat) (lead : Nat) : List (Int × Int) :=
  (sameInitsPool inits refTimes unitM leads).map
    (fun i => (i, validTime i lead unitM))

/-- Modelled from the spec: the per-lead aligned slice under
`maximize` pairs each lead-valid init with its valid time. -/
def alignMaximize (inits : List Int) (refTimes : List Int) (unitM : Nat)
    (lead : Nat) : List (Int × Int) :=
  (validInits inits refTimes unitM lead).map
    (fun i => (i, validTime i lead unitM))

/-- Modelled from the spec (Comparison Strategy): reduce the `member`
dimension by arithmetic mean. -/
def ensembleMean (ms : List ℚ) : ℚ :=
  ms.sum / (ms.length : ℚ)

/-- Modelled from the spec (Metric Engine, missing-value semantics):
the pairs of operand values actually entering the reduction are the
positions where both operands are present; positions missing in
either operand are excluded. -/
def pairedValues (xs ys : List (Option ℚ)) : List (ℚ × ℚ) :=
  (xs.zip ys).filterMap (fun p =>
    match p with
    | (some a, some b) => some (a, b)
    | _ => none)

/-- Modelled from the spec (Metric Engine): mean squared error over
the paired sample. -/
def mseCore (ps : List (ℚ × ℚ)) : ℚ :=
  (ps.map (fun p => (p.1 - p.2) ^ 2)).sum / (ps.length : ℚ)

/-- Modelled from the spec (Metric Engine): mean absolute error over
the paired sample. -/
def maeCore (ps : List (ℚ × ℚ)) : ℚ :=
  (ps.map (fun p => |p.1 - p.2|)).sum / (ps.length : ℚ)

/-- Modelled from the spec (Metric Engine): root mean squared error,
the square root of the mean squared error. -/
noncomputable def rmseCore (ps : List (ℚ × ℚ)) : ℝ :=
  Real.sqrt ((mseCore ps : ℚ) : ℝ)

/-- Modelled from the spec (Metric Engine): apply a metric's reduction
to the present-in-both positions; a metric over an all-missing sample
returns a missing result, not an error. -/
def applyMetric {α : Type} (core : List (ℚ × ℚ) → α)
    (xs ys : List (Option ℚ)) : Option α :=
  if pairedValues xs ys = [] then none else some (core (pairedValues xs ys))

/-- Modelled from the spec: the MSE metric with missing-value handling. -/
def mse (xs ys : List (Option ℚ)) : Option ℚ :=
  applyMetric mseCore xs ys

/-- Modelled from the spec: the MAE metric with missing-value handling. -/
def mae (xs ys : List (Option ℚ)) : Option ℚ :=
  applyMetric maeCore xs ys

/-- Modelled from the spec: the RMSE metric with missing-value handling. -/
noncomputable def rmse (xs ys : List (Option ℚ)) : Option ℝ :=
  applyMetric rmseCore xs ys

/-- Modelled from the spec (Data Model): a Forecast Ensemble with
dimensions `init`, `lead` and `member`; `data i l` is the list of
member values for initialization `i` at lead `l`. -/
structure Forecast where
  inits : List Int
  leads : List Nat
  unitM : Nat
  data : Int → Nat → List ℚ

/-- Modelled from the spec (Data Model): a Skill Result indexed by
`lead`, holding one (possibly missing) metric value per lead, and
carrying provenance metadata (metric name, comparison name, alignment
policy, sample counts). -/
structure SkillResult (α : Type) where
  leads : List Nat
  values : List (Option α)
  metricName : String
  comparisonName : String
  alignmentName : String
  ninit : Nat

/-- Modelled from the spec (Comparison Strategy,
`ensemble_mean_vs_reference`): for each lead-valid init, pair the
forecast's ensemble mean with the reference value at the
corresponding valid time. -/
def e2rOperands (fc : Forecast) (refTimes : List Int) (refData : Int → ℚ)
    (lead : Nat) : List (ℚ × ℚ) :=
  (validInits fc.inits refTimes fc.unitM lead).map
    (fun i => (ensembleMean (fc.data i lead), refData (validTime i lead fc.unitM)))

/-- Modelled from the spec (Orchestrator, per lead): if zero valid
pairs exist for a lead, that lead's skill is a missing value, not a
hard failure; otherwise apply the metric to the comparison operands. -/
def verifyLead {α : Type} (metric : List (ℚ × ℚ) → α)
    (ops : List (ℚ × ℚ)) : Option α :=
  if ops = [] then none else some (metric ops)

/-- Modelled from the spec (Skill Computation Orchestrator): for each
requested lead, invoke Aligner (`maximize` policy) then Comparison
(`ensemble_mean_vs_reference`) then Metric, assemble the per-lead
values into a Skill Result indexed by lead, and attach provenance
metadata. -/
def verify {α : Type} (metric : List (ℚ × ℚ) → α) (fc : Forecast)
    (refTimes : List Int) (refData : Int → ℚ)
    (metricName comparisonName alignmentName : String) : SkillResult α :=
  { leads := fc.leads
    values := fc.leads.map (fun l => verifyLead metric (e2rOperands fc refTimes refData l))
    metricName := metricName
    comparisonName := comparisonName
    alignmentName := alignmentName
    ninit := fc.inits.length }

/-- Modelled from the spec (Data Model): the values of a forecast at
one spatial grid point, for the perfect-model entry point: for each
lead, for each initialization, the list of member values. -/
abbrev PointData : Type := List (List (List ℚ))

/-- Modelled from the spec (Comparison Strategy,
`member_vs_ensemble_mean`, the `m2e` analog): each member is paired
against the full ensemble mean of its initialization. -/
def m2ePairs (leadData : List (List ℚ)) : List (ℚ × ℚ) :=
  (leadData.map (fun ms => ms.map (fun m => (m, ensembleMean ms)))).flatten

/-- Modelled from the spec (`compute_perfect_model` at one grid
point, `comparison=m2e`, `metric=rmse`): one RMSE skill value per
lead. -/
noncomputable def computePerfectModelPoint (pd : PointData) : List ℝ :=
  pd.map (fun leadData => rmseCore (m2ePairs leadData))

/-- Modelled from the spec (`compute_perfect_model`, unchunked): map
the per-point skill computation over the whole spatial grid. -/
noncomputable def computePerfectModel (grid : List PointData) : List (List ℝ) :=
  grid.map computePerfectModelPoint

/-- Modelled from the spec (chunked-array backend): split a spatial
dimension into consecutive blocks of the given sizes (any leftover
forms a final block). -/
def chunkBySizes {α : Type} : List Nat → List α → List (List α)
  | [], xs => if xs.isEmpty then [] else [xs]
  | n :: ns, xs => xs.take n :: chunkBySizes ns (xs.drop n)

/-- Modelled from the spec (`compute_perfect_model` on a lazily
chunked input): the computation is applied block by block and the
result remains a chunked collection of per-block results; no block is
merged eagerly. -/
noncomputable def computePerfectModelOnChunks
    (blocks : List (List PointData)) : List (List (List ℝ)) :=
  blocks.map (fun blk => blk.map computePerfectModelPoint)

/-- Modelled from the spec (chunked execution over a spatial
dimension): chunk the grid, then compute per block. -/
noncomputable def computePerfectModelChunked (sizes : List Nat)
    (grid : List PointData) : List (List (List ℝ)) :=
  computePerfectModelOnChunks (chunkBySizes sizes grid)

/-- Modelled from the spec (Significance Engine): the one-sided
empirical p-value at one lead: the fraction of resampled skill values
at least as favorable (per the metric's positively-oriented flag) as
the observed initialized skill. -/
def pValue (posOriented : Bool) (resampled : List ℚ) (observed : ℚ) : ℚ :=
  ((resampled.countP (fun v =>
      if posOriented then decide (observed ≤ v) else decide (v ≤ observed))) : ℚ) /
    (resampled.length : ℚ)

/-- Modelled from the spec (Significance Engine): the p-values handed
back to the caller, one per lead, separately for the uninitialized
and the persistence resampled distributions. -/
structure Summary where
  pUninit : List ℚ
  pPersist : List ℚ

/-- Modelled from the spec (Significance Engine `summarize`): pair
each lead's resampled distribution with the observed initialized
skill at that lead and form the empirical p-values. -/
def summarize (posOriented : Bool) (uninitDists persistDists : List (List ℚ))
    (observed : List ℚ) : Summary :=
  { pUninit := (uninitDists.zip observed).map (fun p => pValue posOriented p.1 p.2)
    pPersist := (persistDists.zip observed).map (fun p => pValue posOriented p.1 p.2) }

/-- Modelled from the spec (Resampler, seed): a deterministic 32-bit
linear congruential generator standing in for the seeded random
number generator; the seed fully determines the stream. -/
def lcg (s : Nat) : Nat := (1664525 * s + 1013904223) % 4294967296

/-- Modelled from the spec (Resampler): draw `count` indices in
`[0, n)` with replacement, threading the generator state. -/
def drawIndices : Nat → Nat → Nat → List Nat × Nat
  | 0, _, s => ([], s)
  | c + 1, n, s =>
    let s' := lcg s
    let rec_result := drawIndices c n s'
    (s' % n :: rec_result.1, rec_result.2)

/-- Modelled from the spec (Resampler): for each bootstrap iteration,
draw a with-replacement resample of the `init` dimension. -/
def resampleDraws : Nat → Nat → Nat → List (List Nat)
  | 0, _, _ => []
  | it + 1, n, s =>
    let d := drawIndices n n s
    d.1 :: resampleDraws it n d.2

/-- Modelled from the spec (Resampler output consumed by the
caller): the resampled index sequences and the per-lead p-values. -/
structure BootstrapResult where
  indices : List (List Nat)
  pValues : List ℚ

/-- Modelled from the spec (`bootstrap_perfect_model`): repeatedly
resample the `init` dimension with replacement using the seeded
generator, re-run the Skill Computation Orchestrator on each
resample, and turn the per-lead resampled skill distributions into
empirical p-values against the observed skill. -/
def bootstrapPerfectModel (fc : Forecast) (refTimes : List Int)
    (refData : Int → ℚ) (iterations seed : Nat) : BootstrapResult :=
  let draws := resampleDraws iterations fc.inits.length seed
  let observed := (verify mseCore fc refTimes refData "mse" "m2e" "maximize").values
  let iterSkills := draws.map (fun d =>
    (verify mseCore
        (Forecast.mk (d.map (fun j => fc.inits.getD j 0)) fc.leads fc.unitM fc.data)
        refTimes refData "mse" "m2e" "maximize").values)
  let pv := (List.range fc.leads.length).map (fun k =>
    pValue false ((iterSkills.map (fun vs => vs.getD k none)).filterMap id)
      ((observed.getD k none).getD 0))
  { indices := draws, pValues := pv }

end Climpred

namespace Climpred

/-- Helper: `countP` is antitone in the predicate. -/
theorem length_filter_le_of_imp {l : List Int} {p q : Int → Bool}
    (h : ∀ a ∈ l, p a = true → q a = true) :
    (l.filter p).length ≤ (l.filter q).length := by
  induction l with
  | nil => simp
  | cons x xs ih =>
    have hx := h x (by simp)
    have ih' := ih (fun a ha hpa => h a (by simp [ha]) hpa)
    by_cases hpx : p x = true
    · rw [List.filter_cons_of_pos hpx, List.filter_cons_of_pos (hx hpx)]
      simpa using ih'
    · rw [List.filter_cons_of_neg (by simpa using hpx)]
      by_cases hqx : q x = true
      · rw [List.filter_cons_of_pos hqx]
        exact Nat.le_succ_of_le ih'
      · rw [List.filter_cons_of_neg (by simpa using hqx)]
        exact ih'

/-- C5: when some lead has zero valid (init, verification-time)
pairs, `verify` does not fail: that lead's entry in the Skill Result
is a missing value, and the values of all the other leads are exactly
those computed when that lead is absent. -/
theorem verify_zero_valid_pairs_missing {α : Type}
    (metric : List (ℚ × ℚ) → α) (inits : List Int) (unitM : Nat)
    (data : Int → Nat → List ℚ) (refTimes : List Int) (refData : Int → ℚ)
    (L₁ L₂ : List Nat) (l : Nat) (mn cn an : String)
    (h : validInits inits refTimes unitM l = []) :
    (verify metric (Forecast.mk inits (L₁ ++ l :: L₂) unitM data)
        refTimes refData mn cn an).values =
      (verify metric (Forecast.mk inits L₁ unitM data)
          refTimes refData mn cn an).values ++
        none :: (verify metric (Forecast.mk inits L₂ unitM data)
          refTimes refData mn cn an).values := by
  simp only [verify, List.map_append, List.map_cons]
  congr 1
  simp [e2rOperands, verifyLead, h]

/-- C5 (witness): a concrete forecast where lead `5` has no valid
pair while lead `1` does. -/
theorem verify_zero_valid_pairs_missing_witness :
    validInits [(0 : Int)] [1] 1 5 = [] ∧
    (verify mseCore (Forecast.mk [(0 : Int)] ([1] ++ 5 :: []) 1 (fun _ _ => [1]))
        [1] (fun _ => 1) "mse" "e2r" "maximize").values =
      (verify mseCore (Forecast.mk [(0 : Int)] [1] 1 (fun _ _ => [1]))
          [1] (fun _ => 1) "mse" "e2r" "maximize").values ++
        none :: (verify mseCore (Forecast.mk [(0 : Int)] [] 1 (fun _ _ => [1]))
          [1] (fun _ => 1) "mse" "e2r" "maximize").values :=
  ⟨by decide,
    verify_zero_valid_pairs_missing mseCore [(0 : Int)] 1 (fun _ _ => [1])
      [1] (fun _ => 1) [1] [] 5 "mse" "e2r" "maximize" (by decide)⟩

/-- C10: the Skill Result of `verify` carries exactly the forecast's
lead coordinate values in the same order (in particular lead `0` when
present), holds one value slot per lead, and its provenance metadata
records the number of initializations, equal to the size of the
forecast's `init` dimension. -/
theorem verify_leads_and_provenance {α : Type}
    (metric : List (ℚ × ℚ) → α) (fc : Forecast) (refTimes : List Int)
    (refData : Int → ℚ) (mn cn an : String) :
    (verify metric fc refTimes refData mn cn an).leads = fc.leads ∧
    (verify metric fc refTimes refData mn cn an).values.length = fc.leads.length ∧
    (verify metric fc refTimes refData mn cn an).ninit = fc.inits.length := by
  refine ⟨rfl, ?_, rfl⟩
  simp [verify]

/-- Helper: a sum of nonnegative rationals vanishes iff every term
vanishes. -/
theorem sum_eq_zero_iff_of_nonneg {l : List ℚ} (h : ∀ x ∈ l, 0 ≤ x) :
    l.sum = 0 ↔ ∀ x ∈ l, x = 0 := by
  induction l with
  | nil => simp
  | cons x xs ih =>
    have hx : 0 ≤ x := h x (by simp)
    have hxs : ∀ y ∈ xs, 0 ≤ y := fun y hy => h y (by simp [hy])
    have hs : 0 ≤ xs.sum := List.sum_nonneg hxs
    simp only [List.sum_cons, List.mem_cons]
    constructor
    · intro h0
      have hx0 : x = 0 := by linarith
      have hs0 : xs.sum = 0 := by linarith
      intro y hy
      rcases hy with hy | hy
      · exact hy ▸ hx0
      · exact (ih hxs).mp hs0 y hy
    · intro hall
      have hx0 : x = 0 := hall x (Or.inl rfl)
      have hs0 : xs.sum = 0 := (ih hxs).mpr (fun y hy => hall y (Or.inr hy))
      rw [hx0, hs0, add_zero]

/-- Helper: MSE is nonnegative. -/
theorem mseCore_nonneg (ps : List (ℚ × ℚ)) : 0 ≤ mseCore ps := by
  unfold mseCore
  apply div_nonneg
  · exact List.sum_nonneg (by
      intro x hx
      simp only [List.mem_map] at hx
      obtain ⟨p, _, rfl⟩ := hx
      positivity)
  · positivity

/-- Helper: MAE is nonnegative. -/
theorem maeCore_nonneg (ps : List (ℚ × ℚ)) : 0 ≤ maeCore ps := by
  unfold maeCore
  apply div_nonneg
  · exact List.sum_nonneg (by
      intro x hx
      simp only [List.mem_map] at hx
      obtain ⟨p, _, rfl⟩ := hx
      positivity)
  · positivity

/-- Helper: MSE vanishes iff the two operands agree pointwise. -/
theorem mseCore_eq_zero_iff (ps : List (ℚ × ℚ)) :
    mseCore ps = 0 ↔ ∀ p ∈ ps, p.1 = p.2 := by
  rcases eq_or_ne ps [] with h | h
  · subst h; simp [mseCore]
  · have hlen : ((ps.length : ℚ)) ≠ 0 := by
      simpa using fun hh => h (List.length_eq_zero.mp hh)
    unfold mseCore
    rw [div_eq_zero_iff]
    rw [sum_eq_zero_iff_of_nonneg (by
      intro x hx
      simp only [List.mem_map] at hx
      obtain ⟨p, _, rfl⟩ := hx
      positivity)]
    constructor
    · rintro (hall | hbad)
      · intro p hp
        have := hall _ (List.mem_map_of_mem _ hp)
        have h2 : p.1 - p.2 = 0 := by
          have := sq_eq_zero_iff.mp this
          exact this
        linarith
      · exact absurd hbad hlen
    · intro hall
      left
      intro x hx
      simp only [List.mem_map] at hx
      obtain ⟨p, hp, rfl⟩ := hx
      have := hall p hp
      simp [this]

/-- Helper: MAE vanishes iff the two operands agree pointwise. -/
theorem maeCore_eq_zero_iff (ps : List (ℚ × ℚ)) :
    maeCore ps = 0 ↔ ∀ p ∈ ps, p.1 = p.2 := by
  rcases eq_or_ne ps [] with h | h
  · subst h; simp [maeCore]
  · have hlen : ((ps.length : ℚ)) ≠ 0 := by
      simpa using fun hh => h (List.length_eq_zero.mp hh)
    unfold maeCore
    rw [div_eq_zero_iff]
    rw [sum_eq_zero_iff_of_nonneg (by
      intro x hx
      simp only [List.mem_map] at hx
      obtain ⟨p, _, rfl⟩ := hx
      positivity)]
    constructor
    · rintro (hall | hbad)
      · intro p hp
        have := hall _ (List.mem_map_of_mem _ hp)
        have h2 : p.1 - p.2 = 0 := abs_eq_zero.mp this
        linarith
      · exact absurd hbad hlen
    · intro hall
      left
      intro x hx
      simp only [List.mem_map] at hx
      obtain ⟨p, hp, rfl⟩ := hx
      have := hall p hp
      simp [this]

/-- Helper: RMSE vanishes iff the two operands agree pointwise. -/
theorem rmseCore_eq_zero_iff (ps : List (ℚ × ℚ)) :
    rmseCore ps = 0 ↔ ∀ p ∈ ps, p.1 = p.2 := by
  unfold rmseCore
  rw [Real.sqrt_eq_zero (by exact_mod_cast mseCore_nonneg ps)]
  rw [show ((mseCore ps : ℚ) : ℝ) = 0 ↔ mseCore ps = 0 by exact_mod_cast Iff.rfl]
  exact mseCore_eq_zero_iff ps

/-- C6: with comparison `ensemble_mean_vs_reference` and the forecast
itself used as the reference (the reference value at each aligned
valid time equals the forecast's ensemble mean there), `verify`
returns skill exactly `0` at every lead, for each of the distance
metrics MSE, MAE and RMSE; more generally each distance metric is
nonnegative and vanishes iff its two operands are pointwise equal. -/
theorem verify_distance_metric_identity
    (fc : Forecast) (refTimes : List Int) (refData : Int → ℚ)
    (mn cn an : String) (ps : List (ℚ × ℚ))
    (hself : ∀ l ∈ fc.leads, ∀ i ∈ validInits fc.inits refTimes fc.unitM l,
      refData (validTime i l fc.unitM) = ensembleMean (fc.data i l))
    (hvalid : ∀ l ∈ fc.leads, validInits fc.inits refTimes fc.unitM l ≠ []) :
    ((verify mseCore fc refTimes refData mn cn an).values =
        fc.leads.map (fun _ => some 0) ∧
     (verify maeCore fc refTimes refData mn cn an).values =
        fc.leads.map (fun _ => some 0) ∧
     (verify rmseCore fc refTimes refData mn cn an).values =
        fc.leads.map (fun _ => some 0)) ∧
    (0 ≤ mseCore ps ∧ 0 ≤ maeCore ps ∧ 0 ≤ rmseCore ps) ∧
    ((mseCore ps = 0 ↔ ∀ p ∈ ps, p.1 = p.2) ∧
     (maeCore ps = 0 ↔ ∀ p ∈ ps, p.1 = p.2) ∧
     (rmseCore ps = 0 ↔ ∀ p ∈ ps, p.1 = p.2)) := by
  have hops : ∀ l ∈ fc.leads,
      (∀ p ∈ e2rOperands fc refTimes refData l, p.1 = p.2) ∧
      e2rOperands fc refTimes refData l ≠ [] := by
    intro l hl
    constructor
    · intro p hp
      simp only [e2rOperands, List.mem_map] at hp
      obtain ⟨i, hi, rfl⟩ := hp
      exact (hself l hl i hi).symm
    · simp only [e2rOperands, ne_eq, List.map_eq_nil_iff]
      exact hvalid l hl
  refine ⟨⟨?_, ?_, ?_⟩,
    ⟨mseCore_nonneg ps, maeCore_nonneg ps, Real.sqrt_nonneg _⟩,
    ⟨mseCore_eq_zero_iff ps, maeCore_eq_zero_iff ps, rmseCore_eq_zero_iff ps⟩⟩
  · simp only [verify]
    apply List.map_congr_left
    intro l hl
    obtain ⟨heq, hne⟩ := hops l hl
    simp only [verifyLead, if_neg hne]
    exact congrArg some ((mseCore_eq_zero_iff _).mpr heq)
  · simp only [verify]
    apply List.map_congr_left
    intro l hl
    obtain ⟨heq, hne⟩ := hops l hl
    simp only [verifyLead, if_neg hne]
    exact congrArg some ((maeCore_eq_zero_iff _).mpr heq)
  · simp only [verify]
    apply List.map_congr_left
    intro l hl
    obtain ⟨heq, hne⟩ := hops l hl
    simp only [verifyLead, if_neg hne]
    exact congrArg some ((rmseCore_eq_zero_iff _).mpr heq)

/-- C6 (witness): concrete two-member forecast whose ensemble mean is
the constant `3`, verified against the constant-`3` reference. -/
theorem verify_distance_metric_identity_witness :
    ((verify mseCore (Forecast.mk [(0 : Int)] [1] 1 (fun _ _ => [2, 4]))
        [1] (fun _ => 3) "mse" "e2r" "maximize").values =
        [1].map (fun _ => some (0 : ℚ)) ∧
     (verify maeCore (Forecast.mk [(0 : Int)] [1] 1 (fun _ _ => [2, 4]))
        [1] (fun _ => 3) "mse" "e2r" "maximize").values =
        [1].map (fun _ => some (0 : ℚ)) ∧
     (verify rmseCore (Forecast.mk [(0 : Int)] [1] 1 (fun _ _ => [2, 4]))
        [1] (fun _ => 3) "mse" "e2r" "maximize").values =
        [1].map (fun _ => some (0 : ℝ))) ∧
    (0 ≤ mseCore [((1 : ℚ), 1), (2, 5)] ∧ 0 ≤ maeCore [((1 : ℚ), 1), (2, 5)] ∧
      0 ≤ rmseCore [((1 : ℚ), 1), (2, 5)]) ∧
    ((mseCore [((1 : ℚ), 1), (2, 5)] = 0 ↔
        ∀ p ∈ [((1 : ℚ), 1), (2, 5)], p.1 = p.2) ∧
     (maeCore [((1 : ℚ), 1), (2, 5)] = 0 ↔
        ∀ p ∈ [((1 : ℚ), 1), (2, 5)], p.1 = p.2) ∧
     (rmseCore [((1 : ℚ), 1), (2, 5)] = 0 ↔
        ∀ p ∈ [((1 : ℚ), 1), (2, 5)], p.1 = p.2)) :=
  verify_distance_metric_identity
    (Forecast.mk [(0 : Int)] [1] 1 (fun _ _ => [2, 4]))
    [1] (fun _ => 3) "mse" "e2r" "maximize" [((1 : ℚ), 1), (2, 5)]
    (by
      intro l hl i hi
      simp only [List.mem_singleton] at hl
      subst hl
      simp only [validInits, List.mem_filter, List.mem_singleton] at hi
      have hi0 : i = 0 := hi.1
      subst hi0
      norm_num [ensembleMean])
    (by decide)

/-- Helper: `pairedValues` distributes over appends of equal-length
prefixes. -/
theorem pairedValues_append {xs₁ ys₁ : List (Option ℚ)}
    (h : xs₁.length = ys₁.length) (xs₂ ys₂ : List (Option ℚ)) :
    pairedValues (xs₁ ++ xs₂) (ys₁ ++ ys₂) =
      pairedValues xs₁ ys₁ ++ pairedValues xs₂ ys₂ := by
  unfold pairedValues
  rw [List.zip_append h, List.filterMap_append]

/-- Helper: a position missing in the first operand is dropped from
the paired sample. -/
theorem pairedValues_insert_none_left {xs₁ ys₁ : List (Option ℚ)}
    (h : xs₁.length = ys₁.length) (xs₂ ys₂ : List (Option ℚ)) (v : Option ℚ) :
    pairedValues (xs₁ ++ none :: xs₂) (ys₁ ++ v :: ys₂) =
      pairedValues (xs₁ ++ xs₂) (ys₁ ++ ys₂) := by
  have hmid : pairedValues (none :: xs₂) (v :: ys₂) = pairedValues xs₂ ys₂ := by
    cases v <;> simp [pairedValues]
  rw [pairedValues_append h, pairedValues_append h, hmid]

/-- Helper: a position missing in the second operand is dropped from
the paired sample. -/
theorem pairedValues_insert_none_right {xs₁ ys₁ : List (Option ℚ)}
    (h : xs₁.length = ys₁.length) (xs₂ ys₂ : List (Option ℚ)) (v : Option ℚ) :
    pairedValues (xs₁ ++ v :: xs₂) (ys₁ ++ none :: ys₂) =
      pairedValues (xs₁ ++ xs₂) (ys₁ ++ ys₂) := by
  have hmid : pairedValues (v :: xs₂) (none :: ys₂) = pairedValues xs₂ ys₂ := by
    cases v <;> simp [pairedValues]
  rw [pairedValues_append h, pairedValues_append h, hmid]

/-- Helper: an all-missing first operand yields an empty paired
sample. -/
theorem pairedValues_all_none_left {xs : List (Option ℚ)}
    (h : ∀ x ∈ xs, x = none) (ys : List (Option ℚ)) :
    pairedValues xs ys = [] := by
  induction xs generalizing ys with
  | nil => simp [pairedValues]
  | cons x xs ih =>
    cases ys with
    | nil => simp [pairedValues]
    | cons y ys =>
      have hx : x = none := h x (by simp)
      subst hx
      have := ih (fun a ha => h a (by simp [ha])) ys
      simpa [pairedValues] using this

/-- Helper: an all-missing second operand yields an empty paired
sample. -/
theorem pairedValues_all_none_right {ys : List (Option ℚ)}
    (h : ∀ y ∈ ys, y = none) (xs : List (Option ℚ)) :
    pairedValues xs ys = [] := by
  induction xs generalizing ys with
  | nil => simp [pairedValues]
  | cons x xs ih =>
    cases ys with
    | nil => simp [pairedValues]
    | cons y ys =>
      have hy : y = none := h y (by simp)
      subst hy
      have htail := ih (fun a ha => h a (List.mem_cons_of_mem _ ha))
      cases x <;> simpa [pairedValues] using htail

/-- Helper: `applyMetric` only depends on the paired sample. -/
theorem applyMetric_congr {α : Type} (core : List (ℚ × ℚ) → α)
    {xs ys xs' ys' : List (Option ℚ)}
    (h : pairedValues xs ys = pairedValues xs' ys') :
    applyMetric core xs ys = applyMetric core xs' ys' := by
  unfold applyMetric
  rw [h]

/-- Helper: a metric over an empty paired sample is missing. -/
theorem applyMetric_of_empty {α : Type} (core : List (ℚ × ℚ) → α)
    {xs ys : List (Option ℚ)} (h : pairedValues xs ys = []) :
    applyMetric core xs ys = none := by
  unfold applyMetric
  rw [h]
  simp

/-- C7: for each metric of the engine (MSE, MAE, RMSE), a position
missing in either operand is excluded from the reduction (inserting a
missing position anywhere leaves the metric unchanged, in particular
it is not treated as zero), and a metric applied to an all-missing
sample returns a missing result rather than failing. -/
theorem metric_missing_value_semantics
    (xs₁ xs₂ ys₁ ys₂ xs ys zs : List (Option ℚ)) (v : Option ℚ)
    (h : xs₁.length = ys₁.length) (hall : ∀ x ∈ xs, x = none) :
    (mse (xs₁ ++ none :: xs₂) (ys₁ ++ v :: ys₂) = mse (xs₁ ++ xs₂) (ys₁ ++ ys₂) ∧
     mse (xs₁ ++ v :: xs₂) (ys₁ ++ none :: ys₂) = mse (xs₁ ++ xs₂) (ys₁ ++ ys₂) ∧
     mse xs ys = none ∧ mse zs xs = none) ∧
    (mae (xs₁ ++ none :: xs₂) (ys₁ ++ v :: ys₂) = mae (xs₁ ++ xs₂) (ys₁ ++ ys₂) ∧
     mae (xs₁ ++ v :: xs₂) (ys₁ ++ none :: ys₂) = mae (xs₁ ++ xs₂) (ys₁ ++ ys₂) ∧
     mae xs ys = none ∧ mae zs xs = none) ∧
    (rmse (xs₁ ++ none :: xs₂) (ys₁ ++ v :: ys₂) = rmse (xs₁ ++ xs₂) (ys₁ ++ ys₂) ∧
     rmse (xs₁ ++ v :: xs₂) (ys₁ ++ none :: ys₂) = rmse (xs₁ ++ xs₂) (ys₁ ++ ys₂) ∧
     rmse xs ys = none ∧ rmse zs xs = none) := by
  have hl := pairedValues_insert_none_left h xs₂ ys₂ v
  have hr := pairedValues_insert_none_right h xs₂ ys₂ v
  have hx : pairedValues xs ys = [] := pairedValues_all_none_left hall ys
  have hz : pairedValues zs xs = [] := pairedValues_all_none_right hall zs
  exact ⟨⟨applyMetric_congr mseCore hl, applyMetric_congr mseCore hr,
      applyMetric_of_empty mseCore hx, applyMetric_of_empty mseCore hz⟩,
    ⟨applyMetric_congr maeCore hl, applyMetric_congr maeCore hr,
      applyMetric_of_empty maeCore hx, applyMetric_of_empty maeCore hz⟩,
    ⟨applyMetric_congr rmseCore hl, applyMetric_congr rmseCore hr,
      applyMetric_of_empty rmseCore hx, applyMetric_of_empty rmseCore hz⟩⟩

/-- C7 (witness): concrete operands with one position missing on each
side and an all-missing sample. -/
theorem metric_missing_value_semantics_witness :
    (mse ([some 1] ++ none :: [some 2]) ([some 1] ++ some 9 :: [some 3]) =
        mse ([some 1] ++ [some 2]) ([some 1] ++ [some 3]) ∧
     mse ([some 1] ++ some 9 :: [some 2]) ([some 1] ++ none :: [some 3]) =
        mse ([some 1] ++ [some 2]) ([some 1] ++ [some 3]) ∧
     mse [none, none] [some 4, some 5] = none ∧
     mse [some 7] [none, none] = none) ∧
    (mae ([some 1] ++ none :: [some 2]) ([some 1] ++ some 9 :: [some 3]) =
        mae ([some 1] ++ [some 2]) ([some 1] ++ [some 3]) ∧
     mae ([some 1] ++ some 9 :: [some 2]) ([some 1] ++ none :: [some 3]) =
        mae ([some 1] ++ [some 2]) ([some 1] ++ [some 3]) ∧
     mae [none, none] [some 4, some 5] = none ∧
     mae [some 7] [none, none] = none) ∧
    (rmse ([some 1] ++ none :: [some 2]) ([some 1] ++ some 9 :: [some 3]) =
        rmse ([some 1] ++ [some 2]) ([some 1] ++ [some 3]) ∧
     rmse ([some 1] ++ some 9 :: [some 2]) ([some 1] ++ none :: [some 3]) =
        rmse ([some 1] ++ [some 2]) ([some 1] ++ [some 3]) ∧
     rmse [none, none] [some 4, some 5] = none ∧
     rmse [some 7] [none, none] = none) :=
  metric_missing_value_semantics [some 1] [some 2] [some 1] [some 3]
    [none, none] [some 4, some 5] [some 7] (some 9) (by decide) (by decide)

/-- Helper: chunking partitions the grid: concatenating the blocks
recovers the original list. -/
theorem flatten_chunkBySizes {α : Type} (sizes : List Nat) (xs : List α) :
    (chunkBySizes sizes xs).flatten = xs := by
  induction sizes generalizing xs with
  | nil =>
    by_cases h : xs.isEmpty
    · simp [chunkBySizes, h, List.isEmpty_iff.mp h]
    · simp [chunkBySizes, h]
  | cons n ns ih =>
    simp [chunkBySizes, ih, List.take_append_drop]

/-- C1: `compute_perfect_model` with `comparison=m2e` and
`metric=rmse` run on the input chunked over the spatial dimension
gives, once materialized, exactly the unchunked result, so for every
lead and spatial position the chunked and unchunked skill values
agree within `1e-6` absolute tolerance. -/
theorem computePerfectModel_chunked_consistent (sizes : List Nat)
    (grid : List PointData) :
    (computePerfectModelChunked sizes grid).flatten = computePerfectModel grid ∧
    List.Forall₂ (List.Forall₂ (fun a b : ℝ => |a - b| ≤ 1 / 1000000))
      ((computePerfectModelChunked sizes grid).flatten)
      (computePerfectModel grid) := by
  have heq : (computePerfectModelChunked sizes grid).flatten =
      computePerfectModel grid := by
    unfold computePerfectModelChunked computePerfectModelOnChunks
      computePerfectModel
    rw [← List.map_flatten, flatten_chunkBySizes]
  refine ⟨heq, ?_⟩
  rw [heq]
  rw [List.forall₂_same]
  intro x _
  rw [List.forall₂_same]
  intro a _
  simp only [sub_self, abs_zero]
  norm_num

/-- C9: when the input to `compute_perfect_model` is a chunked (lazy)
collection, the result is again a chunked collection with one result
block per input block (the core does not force eager merging), and
materializing it yields exactly the skill of the materialized
input. -/
theorem computePerfectModel_lazy_blocks (blocks : List (List PointData)) :
    (computePerfectModelOnChunks blocks).length = blocks.length ∧
    (computePerfectModelOnChunks blocks).flatten =
      computePerfectModel blocks.flatten := by
  constructor
  · simp [computePerfectModelOnChunks]
  · unfold computePerfectModelOnChunks computePerfectModel
    rw [← List.map_flatten]

/-- Helper: every p-value is a rational in `[0, 1]`. -/
theorem pValue_bounds (b : Bool) (l : List ℚ) (o : ℚ) :
    0 ≤ pValue b l o ∧ pValue b l o ≤ 1 := by
  unfold pValue
  constructor
  · positivity
  · rcases Nat.eq_zero_or_pos l.length with h | h
    · simp [h, List.length_eq_zero.mp h]
    · rw [div_le_one (by exact_mod_cast h)]
      exact_mod_cast List.countP_le_length _

/-- C2: the Resampler and the bootstrap entry point are deterministic
in the seed: two runs of `bootstrap_perfect_model` on identical
inputs, identical iteration counts and the same fixed seed draw
identical resampled index sequences and produce identical
p-values. -/
theorem bootstrapPerfectModel_deterministic
    (fc₁ fc₂ : Forecast) (refTimes₁ refTimes₂ : List Int)
    (refData₁ refData₂ : Int → ℚ) (iterations₁ iterations₂ seed₁ seed₂ : Nat)
    (hfc : fc₁ = fc₂) (htimes : refTimes₁ = refTimes₂)
    (hdata : refData₁ = refData₂) (hit : iterations₁ = iterations₂)
    (hseed : seed₁ = seed₂) :
    (bootstrapPerfectModel fc₁ refTimes₁ refData₁ iterations₁ seed₁).indices =
      (bootstrapPerfectModel fc₂ refTimes₂ refData₂ iterations₂ seed₂).indices ∧
    (bootstrapPerfectModel fc₁ refTimes₁ refData₁ iterations₁ seed₁).pValues =
      (bootstrapPerfectModel fc₂ refTimes₂ refData₂ iterations₂ seed₂).pValues := by
  subst hfc htimes hdata hit hseed
  exact ⟨rfl, rfl⟩

/-- C2 (witness): two runs on a concrete two-init forecast with
`iterations = 4` and seed `42`. -/
theorem bootstrapPerfectModel_deterministic_witness :
    (bootstrapPerfectModel (Forecast.mk [(0 : Int), 1] [1] 1 (fun _ _ => [1, 2]))
        [1, 2] (fun _ => 1) 4 42).indices =
      (bootstrapPerfectModel (Forecast.mk [(0 : Int), 1] [1] 1 (fun _ _ => [1, 2]))
        [1, 2] (fun _ => 1) 4 42).indices ∧
    (bootstrapPerfectModel (Forecast.mk [(0 : Int), 1] [1] 1 (fun _ _ => [1, 2]))
        [1, 2] (fun _ => 1) 4 42).pValues =
      (bootstrapPerfectModel (Forecast.mk [(0 : Int), 1] [1] 1 (fun _ _ => [1, 2]))
        [1, 2] (fun _ => 1) 4 42).pValues :=
  bootstrapPerfectModel_deterministic
    (Forecast.mk [(0 : Int), 1] [1] 1 (fun _ _ => [1, 2]))
    (Forecast.mk [(0 : Int), 1] [1] 1 (fun _ _ => [1, 2]))
    [1, 2] [1, 2] (fun _ => 1) (fun _ => 1) 4 4 42 42
    rfl rfl rfl rfl rfl

/-- C3: for each lead and each kind (uninitialized, persistence), the
p-value produced by `summarize` is exactly the fraction of that
kind's resampled skill values at least as favorable — per the
metric's orientation flag — as the observed initialized skill at that
lead, and consequently every returned p-value lies in `[0, 1]`. -/
theorem summarize_pvalue_fraction_and_bounds (posOriented : Bool)
    (uninitDists persistDists : List (List ℚ)) (observed : List ℚ) :
    ((summarize posOriented uninitDists persistDists observed).pUninit =
        (uninitDists.zip observed).map (fun p =>
          ((p.1.countP (fun v =>
              if posOriented then decide (p.2 ≤ v) else decide (v ≤ p.2))) : ℚ) /
            (p.1.length : ℚ)) ∧
     (summarize posOriented uninitDists persistDists observed).pPersist =
        (persistDists.zip observed).map (fun p =>
          ((p.1.countP (fun v =>
              if posOriented then decide (p.2 ≤ v) else decide (v ≤ p.2))) : ℚ) /
            (p.1.length : ℚ))) ∧
    (∀ q ∈ (summarize posOriented uninitDists persistDists observed).pUninit,
        0 ≤ q ∧ q ≤ 1) ∧
    (∀ q ∈ (summarize posOriented uninitDists persistDists observed).pPersist,
        0 ≤ q ∧ q ≤ 1) := by
  refine ⟨⟨rfl, rfl⟩, ?_, ?_⟩ <;>
  · intro q hq
    simp only [summarize, List.mem_map] at hq
    obtain ⟨p, _, rfl⟩ := hq
    exact pValue_bounds posOriented p.1 p.2

/-- C3 (witness): `summarize` on concrete three-iteration resampled
distributions for two leads. -/
theorem summarize_pvalue_fraction_and_bounds_witness :
    ((summarize true [[1, 2, 3], [0, 0, 5]] [[2, 2], [1, 4]] [2, 1]).pUninit =
        ([[(1 : ℚ), 2, 3], [0, 0, 5]].zip [(2 : ℚ), 1]).map (fun p =>
          ((p.1.countP (fun v =>
              if true then decide (p.2 ≤ v) else decide (v ≤ p.2))) : ℚ) /
            (p.1.length : ℚ)) ∧
     (summarize true [[1, 2, 3], [0, 0, 5]] [[2, 2], [1, 4]] [2, 1]).pPersist =
        ([[(2 : ℚ), 2], [1, 4]].zip [(2 : ℚ), 1]).map (fun p =>
          ((p.1.countP (fun v =>
              if true then decide (p.2 ≤ v) else decide (v ≤ p.2))) : ℚ) /
            (p.1.length : ℚ))) ∧
    (∀ q ∈ (summarize true [[1, 2, 3], [0, 0, 5]] [[2, 2], [1, 4]] [2, 1]).pUninit,
        0 ≤ q ∧ q ≤ 1) ∧
    (∀ q ∈ (summarize true [[1, 2, 3], [0, 0, 5]] [[2, 2], [1, 4]] [2, 1]).pPersist,
        0 ≤ q ∧ q ≤ 1) :=
  summarize_pvalue_fraction_and_bounds true
    [[1, 2, 3], [0, 0, 5]] [[2, 2], [1, 4]] [2, 1]

/-- C4 (counterexample): under the `maximize` policy with a fixed
reference window `[5, 10]`, a single init at time `0` is invalid at
lead `0` but valid at lead `5`, so the per-lead sample count
increases from lead `0` to lead `5`: counts are not monotonically
non-increasing in general. -/
theorem maximize_count_increases_at_late_lead :
    ¬ ((validInits [(0 : Int)] [5, 6, 7, 8, 9, 10] 1 5).length ≤
       (validInits [(0 : Int)] [5, 6, 7, 8, 9, 10] 1 0).length) := by
  decide

/-- C4 (amended): `same_inits` yields the same sample count at every
lead; `maximize` sample counts are monotonically non-increasing as
lead increases provided the fixed verification-time range is an
interval `[lo, hi]` and no init's valid time falls below `lo` (i.e.
the lower edge of the reference window is not binding). -/
theorem alignment_sample_counts (inits refTimes : List Int) (unitM : Nat)
    (leads : List Nat) (l₁ l₂ : Nat) (lo hi : Int)
    (href : ∀ t : Int, t ∈ refTimes ↔ lo ≤ t ∧ t ≤ hi)
    (hinits : ∀ i ∈ inits, lo ≤ i)
    (hl : l₁ ≤ l₂) :
    (alignSameInits inits refTimes unitM leads l₁).length =
      (alignSameInits inits refTimes unitM leads l₂).length ∧
    (alignMaximize inits refTimes unitM l₂).length ≤
      (alignMaximize inits refTimes unitM l₁).length := by
  constructor
  · simp [alignSameInits]
  · simp only [alignMaximize, List.length_map, validInits]
    apply length_filter_le_of_imp
    intro i hi2 hp
    rw [decide_eq_true_iff] at hp ⊢
    rw [href] at hp ⊢
    obtain ⟨hplo, hphi⟩ := hp
    constructor
    · calc lo ≤ i := hinits i hi2
        _ ≤ validTime i l₁ unitM := by
            unfold validTime
            have : (0 : Int) ≤ (l₁ : Int) * (unitM : Int) := by positivity
            omega
    · calc validTime i l₁ unitM ≤ validTime i l₂ unitM := by
            unfold validTime
            have : ((l₁ : Int)) * (unitM : Int) ≤ ((l₂ : Int)) * (unitM : Int) := by
              apply mul_le_mul_of_nonneg_right
              · exact_mod_cast hl
              · positivity
            omega
        _ ≤ hi := hphi

/-- C4 (witness): the amended statement instantiated on a concrete
configuration: inits `{5, 6}`, reference window `[5, 10]`, unit `1`,
leads `1 ≤ 3`. -/
theorem alignment_sample_counts_witness :
    (alignSameInits [5, 6] [5, 6, 7, 8, 9, 10] 1 [1, 3] 1).length =
      (alignSameInits [5, 6] [5, 6, 7, 8, 9, 10] 1 [1, 3] 3).length ∧
    (alignMaximize [5, 6] [5, 6, 7, 8, 9, 10] 1 3).length ≤
      (alignMaximize [5, 6] [5, 6, 7, 8, 9, 10] 1 1).length :=
  alignment_sample_counts [5, 6] [5, 6, 7, 8, 9, 10] 1 [1, 3] 1 3 5 10
    (by intro t; simp only [List.mem_cons, List.not_mem_nil, or_false]; omega)
    (by decide) (by decide)

end Climpred
